import Mathlib

/-!
Verification of the p2 mini-orchestrator / preparer sources against their
natural-language specification.

The development shallowly embeds:
* the path scheme of `pkg/kp/constants.go` (`nodePath`, `podPath`,
  `PodLockPath`), together with a faithful model of Go's `path.Clean` and
  `path.Join`;
* the status tracker of the preparer binary (`watchForErrors`,
  `statusHandler`);
* the channel-operation trace of `waitForTermination`;
* an RC store modelled from the specification (its implementation lives
  outside the provided sources; only its driver is present).

Strings are processed through their underlying character lists: the Go
`path` functions operate on bytes, and every byte they compare against
(`/`, `.`) is ASCII, so a character-level model is exact.
-/

namespace P2

/-! ## Go `path` package model

`path.Clean` (and hence `path.Join`) applies lexical simplification: it
drops empty and `.` segments, resolves `..` against preceding segments,
keeps leading `..` segments of relative paths (discards them for rooted
ones), and returns `.` for an empty relative result.  We model it
segment-wise, which is equivalent to Go's in-place buffer algorithm. -/

/-- Split a character list on `/`: the first segment paired with the
remaining segments. -/
def splitSlashAux : List Char → List Char × List (List Char)
  | [] => ([], [])
  | c :: cs =>
    if c = '/' then ([], (splitSlashAux cs).1 :: (splitSlashAux cs).2)
    else (c :: (splitSlashAux cs).1, (splitSlashAux cs).2)

/-- Split a character list on `/` (the list of segments; no separators). -/
def splitSlash (l : List Char) : List (List Char) :=
  (splitSlashAux l).1 :: (splitSlashAux l).2

/-- Join segments with `/` separators. -/
def joinSlash : List (List Char) → List Char
  | [] => []
  | [seg] => seg
  | seg :: segs => seg ++ '/' :: joinSlash segs

/-- Core of `path.Clean`: process the segments left to right, keeping an
accumulator in reverse order.  `rooted` tells whether the original path
started with `/` (a rooted path discards `..` at the top, a relative
path keeps it). -/
def cleanSegs (rooted : Bool) : List (List Char) → List (List Char) → List (List Char)
  | acc, [] => acc.reverse
  | acc, seg :: rest =>
    if seg = [] ∨ seg = ['.'] then cleanSegs rooted acc rest
    else if seg = ['.', '.'] then
      match acc with
      | [] => if rooted then cleanSegs rooted [] rest
              else cleanSegs rooted [['.', '.']] rest
      | a :: as =>
        if a = ['.', '.'] then cleanSegs rooted (['.', '.'] :: a :: as) rest
        else cleanSegs rooted as rest
    else cleanSegs rooted (seg :: acc) rest

/-- Go's `path.Clean`, on character lists: a rooted path (leading `/`)
keeps its leading slash and discards leading `..`; a relative path that
cleans to nothing becomes `.`. -/
def goCleanL : List Char → List Char
  | [] => ['.']
  | c :: cs =>
    if c = '/' then '/' :: joinSlash (cleanSegs true [] (splitSlash (c :: cs)))
    else
      match cleanSegs false [] (splitSlash (c :: cs)) with
      | [] => ['.']
      | seg :: segs => joinSlash (seg :: segs)

/-- Go's `path.Clean`. -/
def goClean (s : String) : String := String.mk (goCleanL s.data)

/-- Go's `path.Join` on character lists: drop leading empty elements,
join the rest (including any later empty elements) with `/`, and `Clean`
the result; all-empty input yields the empty path. -/
def goJoinL : List (List Char) → List Char
  | [] => []
  | e :: rest => if e = [] then goJoinL rest else goCleanL (joinSlash (e :: rest))

/-- Go's `path.Join`. -/
def goJoin (elems : List String) : String :=
  String.mk (goJoinL (elems.map String.data))

/-! ## Path scheme (`pkg/kp/constants.go`)

`PodPrefix` is a string type in the source (with constants `intent`,
`reality`, `hooks`); errors are modelled by their `util.Errorf`
message. -/

def INTENT_TREE : String := "intent"
def REALITY_TREE : String := "reality"
def HOOK_TREE : String := "hooks"
def LOCK_TREE : String := "lock"

/-- `nodePath` of `constants.go`: the hook tree ignores the node name
(it is blanked before joining); the other trees require a non-empty
node name. -/
def nodePath (tree nodeName : String) : Except String String :=
  if tree = HOOK_TREE then
    Except.ok (goJoin [tree, ""])
  else if nodeName = "" then
    Except.error "nodeName not specified when computing host path"
  else
    Except.ok (goJoin [tree, nodeName])

/-- `podPath` of `constants.go`: compute the node path, require a
non-empty pod id, and join. -/
def podPath (tree nodeName podId : String) : Except String String :=
  match nodePath tree nodeName with
  | Except.error e => Except.error e
  | Except.ok np =>
    if podId = "" then
      Except.error "pod id not specified when computing pod path"
    else
      Except.ok (goJoin [np, podId])

/-- `PodLockPath` of `constants.go`: the pod path joined under the
`lock` tree. -/
def PodLockPath (tree nodeName podId : String) : Except String String :=
  match podPath tree nodeName podId with
  | Except.error e => Except.error e
  | Except.ok p => Except.ok (goJoin [LOCK_TREE, p])

/-- A segment list that `path.Clean` passes through untouched: non-empty,
not `.`, not `..`, containing no `/`. -/
def PlainSegL (l : List Char) : Prop :=
  l ≠ [] ∧ l ≠ ['.'] ∧ l ≠ ['.', '.'] ∧ '/' ∉ l

instance (l : List Char) : Decidable (PlainSegL l) := by
  unfold PlainSegL; infer_instance

/-- A path segment that `path.Clean` passes through untouched, as a
string. -/
def PlainSeg (s : String) : Prop := PlainSegL s.data

instance (s : String) : Decidable (PlainSeg s) := by
  unfold PlainSeg; infer_instance

/-- Concatenate strings with `/` separators (no cleaning). -/
def slashConcat : List String → String
  | [] => ""
  | [s] => s
  | s :: ss => s ++ "/" ++ slashConcat ss


/-! ## Status tracker (`watchForErrors` / `statusHandler` of the preparer
binary)

`watchForErrors` keeps, per watch loop, a consecutive-error counter and
the last error received; each message on the error channel is one
event, each message on the success channel another.  We model the pair
of variables as a state and the channel traffic as a list of events. -/

/-- Per-loop state of `watchForErrors`: the `consecutive` counter and
the `lastError` variable (`none` models a `nil` Go error). -/
structure TrackerState where
  consecutive : Nat
  lastError : Option String
  deriving DecidableEq, Repr

/-- Initial state: counter `0`, `nil` error. -/
def initialTracker : TrackerState := { consecutive := 0, lastError := none }

/-- One message received by `watchForErrors`: either an error (with its
text) or a success signal. -/
inductive WatchEvent where
  | failure (msg : String)
  | success
  deriving DecidableEq, Repr

/-- One iteration of the `watchForErrors` select loop. -/
def watchStep (s : TrackerState) : WatchEvent → TrackerState
  | WatchEvent.failure msg =>
      { lastError := some msg, consecutive := s.consecutive + 1 }
  | WatchEvent.success => { s with consecutive := 0 }

/-- `watchForErrors` over a whole sequence of received messages. -/
def watchRun (s : TrackerState) (events : List WatchEvent) : TrackerState :=
  events.foldl watchStep s

/-- The JSON body marshalled by the `/_status` handler. -/
structure StatusResponse where
  status : String
  consecutiveHookErrors : Nat
  consecutivePodErrors : Nat
  lastHookError : String
  lastPodError : String
  deriving DecidableEq, Repr

/-- Go's `fmt.Sprintf("%+v", err)`: a `nil` error prints as `<nil>`,
otherwise the error's message. -/
def formatGoError : Option String → String
  | none => "<nil>"
  | some msg => msg

/-- The response built by `statusHandler` from the two tracker states
(main pod-manifest loop and hook loop).  The `status` local is the
constant `"OK"`. -/
def statusResponse (mainState hookState : TrackerState) : StatusResponse :=
  { status := "OK"
    consecutiveHookErrors := hookState.consecutive
    consecutivePodErrors := mainState.consecutive
    lastHookError := formatGoError hookState.lastError
    lastPodError := formatGoError mainState.lastError }

/-! ## Termination trace (`waitForTermination` of the preparer binary)

After the signal arrives, `waitForTermination` performs a fixed
sequence of channel operations.  We record that trace. -/

/-- A blocking channel operation, identified by channel name. -/
inductive ChanOp where
  | send (ch : String)
  | recv (ch : String)
  deriving DecidableEq, Repr

def quitMainUpdate : String := "quitMainUpdate"
def quitHookUpdate : String := "quitHookUpdate"

/-- The channel operations `waitForTermination` performs once a
termination signal is received, in program order: send quit to the hook
loop, send quit to the main loop, then receive the acknowledgement from
the main loop's quit channel. -/
def waitForTerminationOps : List ChanOp :=
  [ChanOp.send quitHookUpdate, ChanOp.send quitMainUpdate,
   ChanOp.recv quitMainUpdate]

/-- `true` exactly on receive operations. -/
def ChanOp.isRecv : ChanOp → Bool
  | ChanOp.recv _ => true
  | ChanOp.send _ => false

/-! ## RC store

Modelled from the spec: the `rcstore` package (`Create`, `Get`, `List`,
`SetDesiredReplicas`, `Disable`, `Delete`) is not among the provided
sources — only its driver (the mini-orchestrator binary) is — so the
store is modelled from the specification's §4.4 contracts.  State is
the list of persisted records plus a fresh-ID counter; every operation
returns its result together with the (possibly unchanged) store. -/

/-- Modelled from the spec: an immutable workload manifest, carrying an
identity and a derivable content digest. -/
structure Manifest where
  id : String
  sha : String
  deriving DecidableEq, Repr

/-- Modelled from the spec: an RC record
`{ID, Manifest, NodeSelector, PodLabels, Disabled, ReplicasDesired}`;
`replicasDesired` is a natural number (the spec requires it
non-negative). -/
structure RC where
  id : Nat
  manifest : Manifest
  nodeSelector : String
  podLabels : List (String × String)
  disabled : Bool
  replicasDesired : Nat
  deriving DecidableEq, Repr

/-- Modelled from the spec: the error taxonomy visible to RC store
callers (not-found and conflict are the ones these claims mention). -/
inductive StoreError where
  | notFound
  | conflict
  deriving DecidableEq, Repr

/-- Modelled from the spec: the RC store's persisted state — the set of
records (as a list) plus the fresh-ID source. -/
structure RCStore where
  records : List RC
  nextId : Nat
  deriving DecidableEq, Repr

/-- Modelled from the spec: `Create` allocates a fresh unique ID and
persists a record with `ReplicasDesired = 0`, `Disabled = false`. -/
def rcCreate (manifest : Manifest) (nodeSelector : String)
    (podLabels : List (String × String)) (s : RCStore) : RC × RCStore :=
  let r : RC := { id := s.nextId, manifest := manifest,
                  nodeSelector := nodeSelector, podLabels := podLabels,
                  disabled := false, replicasDesired := 0 }
  (r, { records := r :: s.records, nextId := s.nextId + 1 })

/-- Modelled from the spec: `Get` fails with not-found if the id is not
persisted.  It is read-only. -/
def rcGet (id : Nat) (s : RCStore) : Except StoreError RC :=
  match s.records.find? (fun r => r.id = id) with
  | none => Except.error StoreError.notFound
  | some r => Except.ok r

/-- Modelled from the spec: `List` returns every persisted record. -/
def rcList (s : RCStore) : List RC := s.records

/-- Modelled from the spec: `SetDesiredReplicas` fails with not-found
if the id is not persisted, otherwise updates that record's
`ReplicasDesired` (the `n ≥ 0` requirement is enforced by the `Nat`
type). -/
def rcSetDesiredReplicas (id : Nat) (n : Nat) (s : RCStore) :
    Except StoreError Unit × RCStore :=
  match s.records.find? (fun r => r.id = id) with
  | none => (Except.error StoreError.notFound, s)
  | some _ =>
    let updated := s.records.map
      (fun r => if r.id = id then { r with replicasDesired := n } else r)
    (Except.ok (), { s with records := updated })

/-- Modelled from the spec: `Disable` fails with not-found if the id is
not persisted, otherwise sets `Disabled = true` (idempotent). -/
def rcDisable (id : Nat) (s : RCStore) : Except StoreError Unit × RCStore :=
  match s.records.find? (fun r => r.id = id) with
  | none => (Except.error StoreError.notFound, s)
  | some _ =>
    let updated := s.records.map
      (fun r => if r.id = id then { r with disabled := true } else r)
    (Except.ok (), { s with records := updated })

/-- Modelled from the spec: `Delete` fails with not-found if the id is
not persisted, fails with conflict while `ReplicasDesired > 0`, and
otherwise removes the record permanently. -/
def rcDelete (id : Nat) (s : RCStore) : Except StoreError Unit × RCStore :=
  match s.records.find? (fun r => r.id = id) with
  | none => (Except.error StoreError.notFound, s)
  | some r =>
    if r.replicasDesired > 0 then (Except.error StoreError.conflict, s)
    else (Except.ok (),
          { s with records := s.records.filter (fun r => r.id ≠ id) })

/-! ### Sample data for concrete witnesses -/

def sampleManifest : Manifest := { id := "helloworld", sha := "abc123" }

def sampleRC : RC :=
  { id := 7, manifest := sampleManifest, nodeSelector := "app=helloworld",
    podLabels := [("mini-orchestrator", "true")], disabled := false,
    replicasDesired := 0 }

def sampleStore : RCStore := { records := [sampleRC], nextId := 8 }

/-! ### Lemmas about the path model -/

theorem splitSlashAux_no_slash (l : List Char) (h : '/' ∉ l) :
    splitSlashAux l = (l, []) := by
  induction l with
  | nil => rfl
  | cons c cs ih =>
    simp only [List.mem_cons, not_or] at h
    have hc : ¬(c = '/') := fun hc => h.1 hc.symm
    simp [splitSlashAux, hc, ih h.2]

/-- Splitting a slash-free list yields the single segment. -/
theorem splitSlash_no_slash (l : List Char) (h : '/' ∉ l) :
    splitSlash l = [l] := by
  simp [splitSlash, splitSlashAux_no_slash l h]

theorem splitSlashAux_append (l₁ l₂ : List Char) (h : '/' ∉ l₁) :
    splitSlashAux (l₁ ++ '/' :: l₂) = (l₁, splitSlash l₂) := by
  induction l₁ with
  | nil => simp [splitSlashAux, splitSlash]
  | cons c cs ih =>
    simp only [List.mem_cons, not_or] at h
    have hc : ¬(c = '/') := fun hc => h.1 hc.symm
    simp [splitSlashAux, hc, ih h.2]

/-- Splitting distributes over a slash separator when the left part is
slash-free. -/
theorem splitSlash_append (l₁ l₂ : List Char) (h : '/' ∉ l₁) :
    splitSlash (l₁ ++ '/' :: l₂) = l₁ :: splitSlash l₂ := by
  simp [splitSlash, splitSlashAux_append l₁ l₂ h]

theorem joinSlash_cons (a : List Char) (b : List (List Char)) (h : b ≠ []) :
    joinSlash (a :: b) = a ++ '/' :: joinSlash b := by
  match b, h with
  | x :: xs, _ => rfl

/-- Splitting inverts joining for nonempty slash-free segment lists. -/
theorem splitSlash_joinSlash (segs : List (List Char)) (hne : segs ≠ [])
    (hsegs : ∀ l ∈ segs, '/' ∉ l) :
    splitSlash (joinSlash segs) = segs := by
  induction segs with
  | nil => exact absurd rfl hne
  | cons seg rest ih =>
    match rest with
    | [] => exact splitSlash_no_slash seg (hsegs seg (List.mem_cons_self seg []))
    | r :: rs =>
      rw [joinSlash_cons seg (r :: rs) (by simp),
        splitSlash_append seg _ (hsegs seg (List.mem_cons_self seg _)),
        ih (by simp) (fun l hl => hsegs l (List.mem_cons_of_mem seg hl))]

/-- `cleanSegs` pushes plain segments unchanged. -/
theorem cleanSegs_plain (rooted : Bool) (segs : List (List Char))
    (hsegs : ∀ l ∈ segs, PlainSegL l) (acc : List (List Char)) :
    cleanSegs rooted acc segs = acc.reverse ++ segs := by
  induction segs generalizing acc with
  | nil => simp [cleanSegs]
  | cons seg rest ih =>
    obtain ⟨h1, h2, h3, _⟩ := hsegs seg (List.mem_cons_self seg rest)
    have hrest : ∀ l ∈ rest, PlainSegL l :=
      fun l hl => hsegs l (List.mem_cons_of_mem seg hl)
    unfold cleanSegs
    simp only [h1, h2, h3, or_self, if_false, ite_false]
    rw [ih hrest (seg :: acc)]
    simp

/-- A nonempty chain of plain segments is a fixed point of `Clean`. -/
theorem goCleanL_plain_chain (segs : List (List Char)) (hne : segs ≠ [])
    (hsegs : ∀ l ∈ segs, PlainSegL l) :
    goCleanL (joinSlash segs) = joinSlash segs := by
  match segs, hne with
  | seg :: rest, _ =>
    obtain ⟨h1, h2, h3, h4⟩ := hsegs seg (List.mem_cons_self seg rest)
    obtain ⟨c, cs, hseg⟩ : ∃ c cs, seg = c :: cs := by
      match seg, h1 with
      | c :: cs, _ => exact ⟨c, cs, rfl⟩
    subst hseg
    have hc : ¬(c = '/') := fun hcc => h4 (hcc ▸ List.mem_cons_self c cs)
    have hsplit : splitSlash (joinSlash ((c :: cs) :: rest)) = (c :: cs) :: rest :=
      splitSlash_joinSlash _ (by simp) (fun l hl => (hsegs l hl).2.2.2)
    obtain ⟨t, ht⟩ : ∃ t, joinSlash ((c :: cs) :: rest) = c :: t := by
      match rest with
      | [] => exact ⟨cs, rfl⟩
      | r :: rs => exact ⟨cs ++ '/' :: joinSlash (r :: rs), rfl⟩
    rw [ht] at hsplit
    rw [ht, goCleanL, if_neg hc, hsplit, cleanSegs_plain false _ hsegs]
    simpa using ht

/-! ### String-level consequences -/


theorem slashConcat_data (segs : List String) :
    (slashConcat segs).data = joinSlash (segs.map String.data) := by
  induction segs with
  | nil => rfl
  | cons s ss ih =>
    match ss with
    | [] => rfl
    | t :: ts =>
      show ((s ++ "/") ++ slashConcat (t :: ts)).data = _
      simp only [List.map_cons]
      rw [joinSlash_cons _ _ (by simp)]
      simp [String.data_append, ih]

theorem data_ne_nil_of_ne_empty {s : String} (h : s ≠ "") : s.data ≠ [] :=
  fun hd => h (String.ext hd)

/-- `path.Join` with a non-empty first element is `Clean` of the
slash-concatenation. -/
theorem goJoin_eq_goClean (a : String) (rest : List String) (ha : a ≠ "") :
    goJoin (a :: rest) = goClean (slashConcat (a :: rest)) := by
  have hd : a.data ≠ [] := data_ne_nil_of_ne_empty ha
  show String.mk (goJoinL (a.data :: rest.map String.data)) = _
  rw [goJoinL, if_neg hd]
  unfold goClean
  rw [slashConcat_data]
  rfl

/-- A slash-concatenation of plain segments is a fixed point of
`Clean`. -/
theorem goClean_slashConcat_plain (segs : List String) (hne : segs ≠ [])
    (hsegs : ∀ s ∈ segs, PlainSeg s) :
    goClean (slashConcat segs) = slashConcat segs := by
  unfold goClean
  rw [slashConcat_data,
    goCleanL_plain_chain (segs.map String.data)
      (by simpa using hne)
      (by intro l hl
          obtain ⟨s, hs, rfl⟩ := List.mem_map.mp hl
          exact hsegs s hs)]
  exact String.ext (by rw [slashConcat_data])

/-- `path.Join` of plain segments concatenates them with slashes. -/
theorem goJoin_plain (segs : List String) (hne : segs ≠ [])
    (hsegs : ∀ s ∈ segs, PlainSeg s) :
    goJoin segs = slashConcat segs := by
  match segs, hne with
  | a :: rest, _ =>
    have ha : a ≠ "" := fun h => (hsegs a (List.mem_cons_self a rest)).1 (h ▸ rfl)
    rw [goJoin_eq_goClean a rest ha, goClean_slashConcat_plain _ (by simp) hsegs]

theorem strAppend_assoc (a b c : String) : a ++ b ++ c = a ++ (b ++ c) :=
  String.ext (by simp [String.data_append])

/-! ### Path-scheme helper lemmas -/

theorem PlainSeg.ne_empty {s : String} (h : PlainSeg s) : s ≠ "" :=
  fun he => h.1 (by rw [he])

theorem append_slash_ne_empty (a b : String) :
    a ++ "/" ++ b ≠ "" := by
  intro h
  have hd := congrArg String.data h
  simp [String.data_append] at hd

/-- On a non-hook tree with plain tree and node names, `nodePath` is
the literal `tree/node`. -/
theorem nodePath_plain (tree node : String) (htree : PlainSeg tree)
    (hhook : tree ≠ HOOK_TREE) (hnode : PlainSeg node) :
    nodePath tree node = Except.ok (tree ++ "/" ++ node) := by
  unfold nodePath
  rw [if_neg hhook, if_neg hnode.ne_empty,
    goJoin_plain [tree, node] (by simp) ?_]
  · rfl
  · intro s hs
    simp only [List.mem_cons, List.not_mem_nil, or_false] at hs
    rcases hs with rfl | rfl
    exacts [htree, hnode]

/-- On a non-hook tree with plain segments, `podPath` is the literal
`tree/node/podId`. -/
theorem podPath_plain (tree node podId : String) (htree : PlainSeg tree)
    (hhook : tree ≠ HOOK_TREE) (hnode : PlainSeg node)
    (hpod : PlainSeg podId) :
    podPath tree node podId =
      Except.ok (tree ++ "/" ++ node ++ "/" ++ podId) := by
  unfold podPath
  rw [nodePath_plain tree node htree hhook hnode]
  simp only [if_neg hpod.ne_empty]
  congr 1
  rw [goJoin_eq_goClean _ [podId] (append_slash_ne_empty tree node)]
  have h2 : slashConcat [tree ++ "/" ++ node, podId] =
      slashConcat [tree, node, podId] :=
    String.ext (by simp [slashConcat, String.data_append])
  rw [h2, goClean_slashConcat_plain [tree, node, podId] (by simp) ?_]
  · exact String.ext (by simp [slashConcat, String.data_append])
  · intro s hs
    simp only [List.mem_cons, List.not_mem_nil, or_false] at hs
    rcases hs with rfl | rfl | rfl
    exacts [htree, hnode, hpod]

/-- On a non-hook tree with plain segments, `PodLockPath` is the
literal `lock/tree/node/podId`. -/
theorem podLockPath_plain (tree node podId : String) (htree : PlainSeg tree)
    (hhook : tree ≠ HOOK_TREE) (hnode : PlainSeg node)
    (hpod : PlainSeg podId) :
    PodLockPath tree node podId =
      Except.ok (LOCK_TREE ++ "/" ++ tree ++ "/" ++ node ++ "/" ++ podId) := by
  unfold PodLockPath
  rw [podPath_plain tree node podId htree hhook hnode hpod]
  simp only []
  congr 1
  rw [goJoin_eq_goClean _ [tree ++ "/" ++ node ++ "/" ++ podId] (by decide)]
  have h2 : slashConcat [LOCK_TREE, tree ++ "/" ++ node ++ "/" ++ podId] =
      slashConcat [LOCK_TREE, tree, node, podId] :=
    String.ext (by simp [slashConcat, String.data_append])
  rw [h2, goClean_slashConcat_plain [LOCK_TREE, tree, node, podId] (by simp) ?_]
  · exact String.ext (by simp [slashConcat, String.data_append])
  · intro s hs
    simp only [List.mem_cons, List.not_mem_nil, or_false] at hs
    rcases hs with rfl | rfl | rfl | rfl
    exacts [by decide, htree, hnode, hpod]

/-! ## Claim theorems -/

/-- C2 counterexample: the claim says `nodePath(intent, node)` returns
the path `intent/node` for every non-empty `node`, but `path.Join`
lexically cleans the result: for `node = ".."` the code returns `"."`,
not `"intent/.."`. -/
theorem nodePath_claim_counterexample :
    nodePath INTENT_TREE ".." = Except.ok "." ∧
    ("." : String) ≠ "intent" ++ "/" ++ ".." := by
  exact ⟨rfl, by decide⟩

/-- C2 (amended): for the hooks tree, `nodePath` ignores the node
argument and returns the tree root `"hooks"`; for the intent/reality
trees it returns the "unspecified node" error exactly when the node is
empty, and otherwise returns `path.Join(tree, node)` — which is the
literal `tree/node` whenever `node` is a plain path segment (non-empty,
not `.` or `..`, no slash). -/
theorem nodePath_correct (tree node : String) :
    (tree = HOOK_TREE → nodePath tree node = Except.ok "hooks") ∧
    (tree = INTENT_TREE ∨ tree = REALITY_TREE →
      (node = "" → nodePath tree node =
        Except.error "nodeName not specified when computing host path") ∧
      (node ≠ "" → nodePath tree node = Except.ok (goJoin [tree, node])) ∧
      (PlainSeg node → nodePath tree node =
        Except.ok (tree ++ "/" ++ node))) := by
  refine ⟨fun h => by subst h; rfl, fun htree => ⟨fun h => ?_, fun h => ?_, fun hp => ?_⟩⟩
  · have hne : tree ≠ HOOK_TREE := by rcases htree with rfl | rfl <;> decide
    unfold nodePath
    rw [if_neg hne, if_pos h]
  · have hne : tree ≠ HOOK_TREE := by rcases htree with rfl | rfl <;> decide
    unfold nodePath
    rw [if_neg hne, if_neg h]
  · have hne : tree ≠ HOOK_TREE := by rcases htree with rfl | rfl <;> decide
    have htp : PlainSeg tree := by rcases htree with rfl | rfl <;> decide
    exact nodePath_plain tree node htp hne hp

/-- C2 witness: the amended theorem at `tree = intent`,
`node = "node1"`. -/
theorem nodePath_correct_witness :
    nodePath INTENT_TREE "node1" = Except.ok ("intent" ++ "/" ++ "node1") :=
  ((nodePath_correct INTENT_TREE "node1").2 (Or.inl rfl)).2.2 (by decide)

/-- C5 counterexample: the claim says `podPath` returns the
"unspecified pod id" error whenever `podId` is empty, and the path
`nodePath/podId` when `podId` is non-empty; but (1) with
`tree = intent`, `node = ""`, `podId = ""` the code returns the node
error instead, and (2) the result is lexically cleaned:
`podPath(intent, "n1", "..")` is `"intent"`, not `"intent/n1/.."`. -/
theorem podPath_claim_counterexample :
    podPath INTENT_TREE "" "" =
      Except.error "nodeName not specified when computing host path" ∧
    ("nodeName not specified when computing host path" : String) ≠
      "pod id not specified when computing pod path" ∧
    podPath INTENT_TREE "n1" ".." = Except.ok "intent" ∧
    ("intent" : String) ≠ "intent" ++ "/" ++ "n1" ++ "/" ++ ".." := by
  exact ⟨rfl, by decide, rfl, by decide⟩

/-- C5 (amended): when `nodePath` fails, `podPath` fails with that same
error (even if `podId` is also empty); when `nodePath` succeeds,
`podPath` fails with the "unspecified pod id" error exactly when
`podId` is empty, and otherwise returns `path.Join(nodePath, podId)` —
for intent/reality trees with plain node and pod-id segments this is
the literal `tree/node/podId`. -/
theorem podPath_correct (tree node podId : String) :
    (∀ e, nodePath tree node = Except.error e →
      podPath tree node podId = Except.error e) ∧
    (∀ np, nodePath tree node = Except.ok np →
      (podId = "" → podPath tree node podId =
        Except.error "pod id not specified when computing pod path") ∧
      (podId ≠ "" → podPath tree node podId =
        Except.ok (goJoin [np, podId]))) ∧
    ((tree = INTENT_TREE ∨ tree = REALITY_TREE) → PlainSeg node →
      PlainSeg podId → podPath tree node podId =
        Except.ok (tree ++ "/" ++ node ++ "/" ++ podId)) := by
  refine ⟨fun e h => ?_, fun np h => ⟨fun hp => ?_, fun hp => ?_⟩,
    fun htree hnode hpod => ?_⟩
  · unfold podPath
    rw [h]
  · unfold podPath
    rw [h]
    simp only [if_pos hp]
  · unfold podPath
    rw [h]
    simp only [if_neg hp]
  · have hne : tree ≠ HOOK_TREE := by rcases htree with rfl | rfl <;> decide
    have htp : PlainSeg tree := by rcases htree with rfl | rfl <;> decide
    exact podPath_plain tree node podId htp hne hnode hpod

/-- C5 witness: the amended theorem at `tree = intent`,
`node = "node1"`, `podId = "pod1"`. -/
theorem podPath_correct_witness :
    podPath INTENT_TREE "node1" "pod1" =
      Except.ok ("intent" ++ "/" ++ "node1" ++ "/" ++ "pod1") :=
  (podPath_correct INTENT_TREE "node1" "pod1").2.2 (Or.inl rfl)
    (by decide) (by decide)

/-- C6 counterexample: the claim says that whenever `podPath` succeeds
with `p`, `PodLockPath` succeeds with `lock/p`; but the join is
lexically cleaned: at `tree = intent`, `node = "../.."`,
`podId = ".."`, `podPath` succeeds with `"../.."` while `PodLockPath`
returns `".."`, not `"lock/../.."`. -/
theorem podLockPath_claim_counterexample :
    podPath INTENT_TREE "../.." ".." = Except.ok "../.." ∧
    PodLockPath INTENT_TREE "../.." ".." = Except.ok ".." ∧
    (".." : String) ≠ LOCK_TREE ++ "/" ++ "../.." := by
  exact ⟨rfl, rfl, by decide⟩

/-- C6 (amended): whenever `podPath` fails, `PodLockPath` fails with
the same error; whenever `podPath` succeeds with `p`, `PodLockPath`
succeeds with `path.Join(lock, p)` — for intent/reality trees with
plain node and pod-id segments this is the literal
`lock/tree/node/podId`. -/
theorem podLockPath_correct (tree node podId : String) :
    (∀ e, podPath tree node podId = Except.error e →
      PodLockPath tree node podId = Except.error e) ∧
    (∀ p, podPath tree node podId = Except.ok p →
      PodLockPath tree node podId = Except.ok (goJoin [LOCK_TREE, p])) ∧
    ((tree = INTENT_TREE ∨ tree = REALITY_TREE) → PlainSeg node →
      PlainSeg podId → PodLockPath tree node podId =
        Except.ok (LOCK_TREE ++ "/" ++ tree ++ "/" ++ node ++ "/" ++ podId)) := by
  refine ⟨fun e h => ?_, fun p h => ?_, fun htree hnode hpod => ?_⟩
  · unfold PodLockPath
    rw [h]
  · unfold PodLockPath
    rw [h]
  · have hne : tree ≠ HOOK_TREE := by rcases htree with rfl | rfl <;> decide
    have htp : PlainSeg tree := by rcases htree with rfl | rfl <;> decide
    exact podLockPath_plain tree node podId htp hne hnode hpod

/-- C6 witness: the amended theorem at `tree = intent`,
`node = "node1"`, `podId = "pod1"`. -/
theorem podLockPath_correct_witness :
    PodLockPath INTENT_TREE "node1" "pod1" =
      Except.ok (LOCK_TREE ++ "/" ++ INTENT_TREE ++ "/" ++ "node1" ++ "/" ++ "pod1") :=
  (podLockPath_correct INTENT_TREE "node1" "pod1").2.2 (Or.inl rfl)
    (by decide) (by decide)

/-- A run consisting only of success events never changes the stored
last error. -/
theorem watchRun_success_only_lastError (s : TrackerState)
    (events : List WatchEvent) (h : ∀ e ∈ events, e = WatchEvent.success) :
    (watchRun s events).lastError = s.lastError := by
  induction events generalizing s with
  | nil => rfl
  | cons e es ih =>
    have he := h e (List.mem_cons_self e es)
    subst he
    show (watchRun (watchStep s WatchEvent.success) es).lastError = s.lastError
    rw [ih _ (fun x hx => h x (List.mem_cons_of_mem _ hx))]
    rfl

/-- C3: in the status tracker state machine, an error event stores that
error as the last error and increments the consecutive-error count by
one, a success event resets the consecutive-error count to zero, and
after any event sequence ending in a success the consecutive-error
count is zero. -/
theorem watchForErrors_state_machine (s : TrackerState) (msg : String)
    (events : List WatchEvent) :
    watchStep s (WatchEvent.failure msg) =
      { lastError := some msg, consecutive := s.consecutive + 1 } ∧
    watchStep s WatchEvent.success = { s with consecutive := 0 } ∧
    (watchRun s (events ++ [WatchEvent.success])).consecutive = 0 := by
  refine ⟨rfl, rfl, ?_⟩
  unfold watchRun
  rw [List.foldl_append]
  rfl

/-- C9: for every history of error and success events on both watch
loops, the `status` field of the handler's response is the constant
`"OK"`; the counters and last errors appear only in their dedicated
fields. -/
theorem statusHandler_status_always_OK (mainEvents hookEvents : List WatchEvent) :
    (statusResponse (watchRun initialTracker mainEvents)
      (watchRun initialTracker hookEvents)).status = "OK" ∧
    (statusResponse (watchRun initialTracker mainEvents)
      (watchRun initialTracker hookEvents)).consecutiveHookErrors =
        (watchRun initialTracker hookEvents).consecutive ∧
    (statusResponse (watchRun initialTracker mainEvents)
      (watchRun initialTracker hookEvents)).consecutivePodErrors =
        (watchRun initialTracker mainEvents).consecutive ∧
    (statusResponse (watchRun initialTracker mainEvents)
      (watchRun initialTracker hookEvents)).lastHookError =
        formatGoError (watchRun initialTracker hookEvents).lastError ∧
    (statusResponse (watchRun initialTracker mainEvents)
      (watchRun initialTracker hookEvents)).lastPodError =
        formatGoError (watchRun initialTracker mainEvents).lastError :=
  ⟨rfl, rfl, rfl, rfl, rfl⟩

/-- C10: a success event only resets the consecutive-error counter and
leaves the stored last error unchanged; hence after an error, the last
error remains that error across any number of subsequent successes. -/
theorem watchForErrors_success_frame (s : TrackerState) (msg : String)
    (successes : List WatchEvent)
    (h : ∀ e ∈ successes, e = WatchEvent.success) :
    watchStep s WatchEvent.success =
      { consecutive := 0, lastError := s.lastError } ∧
    (watchRun (watchStep s (WatchEvent.failure msg)) successes).lastError =
      some msg := by
  refine ⟨rfl, ?_⟩
  rw [watchRun_success_only_lastError _ _ h]
  rfl

/-- C10 witness: the frame theorem run from the initial state with one
error `"boom"` followed by two successes. -/
theorem watchForErrors_success_frame_witness :
    watchStep initialTracker WatchEvent.success =
      { consecutive := 0, lastError := initialTracker.lastError } ∧
    (watchRun (watchStep initialTracker (WatchEvent.failure "boom"))
      [WatchEvent.success, WatchEvent.success]).lastError = some "boom" :=
  watchForErrors_success_frame initialTracker "boom"
    [WatchEvent.success, WatchEvent.success] (by decide)

/-- C7 counterexample: the claim says an acknowledgement is awaited
from each watch loop, but the termination sequence performs no receive
on the hook loop's quit channel — the only acknowledgement read is
from the main loop's channel. -/
theorem waitForTermination_claim_counterexample :
    ChanOp.send quitHookUpdate ∈ waitForTerminationOps ∧
    ChanOp.recv quitHookUpdate ∉ waitForTerminationOps := by decide

/-- C7 (amended): on termination the process first sends a quit signal
to both watch loops (the first two operations), then awaits exactly one
acknowledgement — from the main pod-manifest loop's quit channel, as
the final operation — before proceeding to exit; no acknowledgement is
awaited from the hook loop. -/
theorem waitForTermination_quit_cascade :
    ChanOp.send quitHookUpdate ∈ waitForTerminationOps.take 2 ∧
    ChanOp.send quitMainUpdate ∈ waitForTerminationOps.take 2 ∧
    waitForTerminationOps.getLast? = some (ChanOp.recv quitMainUpdate) ∧
    waitForTerminationOps.filter ChanOp.isRecv =
      [ChanOp.recv quitMainUpdate] := by decide

/-- On a store where `rcGet` finds `r`, the find over the records
yields `r`. -/
theorem rcGet_ok_find (s : RCStore) (id : Nat) (r : RC)
    (h : rcGet id s = Except.ok r) :
    s.records.find? (fun x => x.id = id) = some r := by
  unfold rcGet at h
  cases hfind : s.records.find? (fun x => x.id = id) with
  | none => rw [hfind] at h; exact absurd h (by simp)
  | some x =>
    rw [hfind] at h
    simp only [Except.ok.injEq] at h
    rw [h]

/-- C1: for a persisted RC record, `Delete` succeeds exactly when its
`ReplicasDesired` is zero; while `ReplicasDesired > 0` it fails with a
conflict error and leaves the store unchanged.  (Spec-modelled: the
`rcstore` implementation is outside the provided sources.) -/
theorem rcDelete_iff_zero_replicas (s : RCStore) (id : Nat) (r : RC)
    (h : rcGet id s = Except.ok r) :
    ((rcDelete id s).1 = Except.ok () ↔ r.replicasDesired = 0) ∧
    (0 < r.replicasDesired →
      rcDelete id s = (Except.error StoreError.conflict, s)) := by
  have hf := rcGet_ok_find s id r h
  unfold rcDelete
  rw [hf]
  by_cases hz : r.replicasDesired = 0
  · simp [hz]
  · simp [hz, Nat.pos_of_ne_zero hz]

/-- C1 witness: the theorem at the sample store, whose record `7` has
`ReplicasDesired = 0`. -/
theorem rcDelete_iff_zero_replicas_witness :
    ((rcDelete 7 sampleStore).1 = Except.ok () ↔
      sampleRC.replicasDesired = 0) ∧
    (0 < sampleRC.replicasDesired →
      rcDelete 7 sampleStore = (Except.error StoreError.conflict, sampleStore)) :=
  rcDelete_iff_zero_replicas sampleStore 7 sampleRC (by rfl)

/-- C4: for an id not present in the store, `Get`, `SetDesiredReplicas`,
`Disable` and `Delete` all fail with not-found and leave the store state
untouched.  (Spec-modelled: the `rcstore` implementation is outside the
provided sources.) -/
theorem rcStore_notFound_no_side_effects (s : RCStore) (id n : Nat)
    (h : ∀ r ∈ s.records, r.id ≠ id) :
    rcGet id s = Except.error StoreError.notFound ∧
    rcSetDesiredReplicas id n s = (Except.error StoreError.notFound, s) ∧
    rcDisable id s = (Except.error StoreError.notFound, s) ∧
    rcDelete id s = (Except.error StoreError.notFound, s) := by
  have hf : s.records.find? (fun r => r.id = id) = none :=
    List.find?_eq_none.mpr (by intro x hx; simpa using h x hx)
  refine ⟨?_, ?_, ?_, ?_⟩ <;>
    simp [rcGet, rcSetDesiredReplicas, rcDisable, rcDelete, hf]

/-- C4 witness: the theorem at the sample store and the absent id
`99`. -/
theorem rcStore_notFound_no_side_effects_witness :
    rcGet 99 sampleStore = Except.error StoreError.notFound ∧
    rcSetDesiredReplicas 99 3 sampleStore =
      (Except.error StoreError.notFound, sampleStore) ∧
    rcDisable 99 sampleStore = (Except.error StoreError.notFound, sampleStore) ∧
    rcDelete 99 sampleStore = (Except.error StoreError.notFound, sampleStore) :=
  rcStore_notFound_no_side_effects sampleStore 99 3 (by decide)

/-- C8: `Create` followed by `Get` on the created record's ID succeeds
and returns the very record `Create` returned — the same ID, manifest,
node selector, pod labels, disabled flag and replicas-desired value.
(Spec-modelled: the `rcstore` implementation is outside the provided
sources.) -/
theorem rcCreate_rcGet_roundtrip (s : RCStore) (m : Manifest) (sel : String)
    (labels : List (String × String)) :
    rcGet ((rcCreate m sel labels s).1).id (rcCreate m sel labels s).2 =
      Except.ok ((rcCreate m sel labels s).1) := by
  simp [rcCreate, rcGet]

end P2
